import Mathlib

/-!
Verification of the SheinVoucherHub bot core (session state machine,
order/inventory workflow) against its specification.

The development shallowly embeds the two JavaScript sources
(`src/index.js` and `src/unnamed/part_000`).  Google-Sheet rows are
modelled as records of string-valued cells (exactly what `getRows`
returns); the handlers become pure functions from a sheet state (plus the
inputs of the triggering chat event) to a new sheet state together with
the visible outcome.  JavaScript string/number coercions that the code
relies on are modelled explicitly:

* `s1 < s2` on two strings is lexicographic code-unit comparison (`jsStrLt`);
* on sheet cells, `Number(s)` / `parseInt(s)` are `jsNumberNat` /
  `jsParseIntNat`, with `none` playing the role of `NaN`.  They are
  exact for the whitespace padded decimal-digit strings this system
  ever writes into cells (the code never stores signs, fractions or hex,
  and every claim below pins the relevant cell to such a string); a
  `NaN < n` comparison is `false`, and `splice(0, NaN)` removes nothing,
  as in JavaScript;
* the UTR acceptance test runs on raw user text, so there `trim`,
  `length` and `parseInt` are the full JavaScript algorithms: `jsTrimU`
  strips the whole `StrWhiteSpace` set, `utf16Len` counts UTF-16 code
  units, and `jsParseIntFull` is the ECMA radix-unspecified `parseInt`
  (optional sign, optional `0x`/`0X` hexadecimal prefix);
* `s.trim()` on cells is `jsTrim`, `s.split('\n')` is `splitNl`.
-/

/-- Whitespace recognised by JavaScript `trim` that can occur in the
bot's inputs (ASCII whitespace). -/
def isWsChar (c : Char) : Bool :=
  c = ' ' || c = '\t' || c = '\n' || c = '\r' || c = '\x0b' || c = '\x0c'

/-- Drop leading whitespace. -/
def dropWs (l : List Char) : List Char := l.dropWhile isWsChar

/-- Both-ends trim on character lists. -/
def trimL (l : List Char) : List Char :=
  ((dropWs l).reverse.dropWhile isWsChar).reverse

/-- JavaScript `s.trim()`. -/
def jsTrim (s : String) : String := ⟨trimL s.data⟩

/-- Value of a list of decimal digits (most significant first). -/
def digitsVal : List Char → Nat → Nat
  | [], acc => acc
  | c :: cs, acc => digitsVal cs (acc * 10 + (c.toNat - 48))

/-- JavaScript `Number(s)` for the cell contents this bot produces:
whole-string conversion, `none` standing for `NaN`.  `Number('') = 0`. -/
def jsNumberNat (s : String) : Option Nat :=
  let t := trimL s.data
  if t = [] then some 0
  else if t.all Char.isDigit then some (digitsVal t 0) else none

/-- JavaScript `parseInt(s)` for nonnegative inputs: skip leading
whitespace, read the longest digit prefix, `NaN` (`none`) if there is
none. -/
def jsParseIntNat (s : String) : Option Nat :=
  let t := (s.data.dropWhile isWsChar).takeWhile Char.isDigit
  if t = [] then none else some (digitsVal t 0)

/-- Decimal digits of `n`, via fuel (the fuel `n + 1` always suffices). -/
def natReprAux : Nat → Nat → List Char
  | 0, _ => []
  | fuel + 1, n =>
    if n < 10 then [Char.ofNat (48 + n)]
    else natReprAux fuel (n / 10) ++ [Char.ofNat (48 + n % 10)]

/-- JavaScript `n.toString()` for a nonnegative integer. -/
def natRepr (n : Nat) : String := ⟨natReprAux (n + 1) n⟩

/-- JavaScript `n.toString()` for an integer. -/
def intRepr : Int → String
  | Int.ofNat n => natRepr n
  | Int.negSucc n => ⟨'-' :: (natRepr (n + 1)).data⟩

/-- Lexicographic code-unit comparison. -/
def lexLt : List Char → List Char → Bool
  | [], [] => false
  | [], _ :: _ => true
  | _ :: _, [] => false
  | a :: as, b :: bs => if a < b then true else if b < a then false else lexLt as bs

/-- JavaScript `s1 < s2` on two strings. -/
def jsStrLt (a b : String) : Bool := lexLt a.data b.data

/-- JavaScript `n < x` where `n` is a number and `x` an optional number
(`none` = `NaN`; any comparison against `NaN` is false). -/
def jsLtNatOpt (n : Nat) : Option Nat → Bool
  | some m => n < m
  | none => false

/-- JavaScript `a - b` on coerced numbers, rendered back to a cell string;
`NaN` when either operand is `NaN`. -/
def jsSubToStr : Option Nat → Option Nat → String
  | some a, some b => intRepr ((a : Int) - (b : Int))
  | _, _ => "NaN"

/-- JavaScript `s.split('\n')` on character lists. -/
def splitNl : List Char → List (List Char)
  | [] => [[]]
  | c :: cs =>
    if c = '\n' then [] :: splitNl cs
    else
      match splitNl cs with
      | [] => [[c]]
      | r :: rs => (c :: r) :: rs

/-- Split on newline and comma separators (the admin stock input is split
with `/[\n,]+/`; splitting on each separator character and later
filtering empties yields the same surviving segments as splitting on
runs). -/
def splitSepL : List Char → List (List Char)
  | [] => [[]]
  | c :: cs =>
    if c = '\n' || c = ',' then [] :: splitSepL cs
    else
      match splitSepL cs with
      | [] => [[c]]
      | r :: rs => (c :: r) :: rs

/-- JavaScript `parts.join('\n')` on character lists. -/
def joinNlL : List (List Char) → List Char
  | [] => []
  | [x] => x
  | x :: y :: rest => x ++ '\n' :: joinNlL (y :: rest)

/-- JavaScript `parts.join('\n')` on strings. -/
def joinNl (ls : List String) : String := ⟨joinNlL (ls.map String.data)⟩

/-- Character-list core of the category pool parse:
`s.split('\n').filter(c => c.trim().length > 0)`. -/
def splitPoolL (l : List Char) : List (List Char) :=
  (splitNl l).filter (fun m => 0 < (trimL m).length)

/-- Pool of voucher codes stored in a `VoucherCodes` cell, exactly as
every handler parses it:
`cat.VoucherCodes.split('\n').filter(c => c.trim().length > 0)`. -/
def splitPoolS (s : String) : List String :=
  (splitPoolL s.data).map (fun l => (⟨l⟩ : String))

/-- JavaScript `a || b` for string operands (also covering an absent cell,
which is as falsy as the empty string). -/
def jsOr (a b : String) : String := if a = "" then b else a

/-- Update the first element matching `p` (the write performed by
`updateRow(sheet, matchColumn, matchValue, patch)`, which patches the row
at `findIndex`). -/
def updateFirst (p : α → Bool) (f : α → α) : List α → List α
  | [] => []
  | x :: xs => if p x then f x :: xs else x :: updateFirst p f xs

/-- A row of the `Categories` sheet as read by the handlers.  Absent
price cells are modelled as `""` (an absent cell and the empty string
behave identically in every use the code makes of them: `||` chains and
`parseFloat`). -/
structure Category where
  CategoryID : String
  Value : String
  Price1 : String
  Price5 : String
  Price10 : String
  Price20Plus : String
  Price : String
  Stock : String
  VoucherCodes : String
deriving DecidableEq, Repr

/-- A row of the `Orders` sheet.  Field names follow the accessors used
by the admin approve handler (`o.Category`, `o.Quantity`, ...). -/
structure Order where
  OrderID : String
  UserID : String
  UserName : String
  Category : String
  Quantity : String
  Total : String
  UTR : String
  Status : String
  VoucherCodeDelivered : String
  CreatedAt : String
deriving DecidableEq, Repr

/-- A row of the `Users` sheet. -/
structure UserRow where
  UserID : String
  Name : String
  JoinedAt : String
  Status : String
  Verified : String
deriving DecidableEq, Repr

/-- The persistent state: the three row stores the claims touch. -/
structure SheetState where
  users : List UserRow
  categories : List Category
  orders : List Order
deriving DecidableEq, Repr

/-- Outcome reported by the admin approve branch. -/
inductive ApproveResult
  | notFoundOrProcessed
  | stockLow
  | insufficientCodes
  | approved (codes : List String)
  | aborted
deriving DecidableEq, Repr

/-- Result of one run of the approve branch: the reported outcome, the
sheet state after the writes that committed, and whether the
"Order Approved" success message was sent to the buyer. -/
structure ApproveOut where
  result : ApproveResult
  state : SheetState
  userSuccessMsg : Bool
deriving DecidableEq, Repr

/-- The `adm_approve_` branch of the admin callback handler
(`src/unnamed/part_000`, lines 556-604).  `catWriteOk` / `ordWriteOk`
model whether the two `updateRow` sheet calls succeed; a failing call
throws, which aborts the handler after the writes already committed
(neither `updateRow` there is wrapped in try/catch, and the handler
ignores `updateRow`'s boolean result).  The guards are verbatim:
`Status !== 'Pending'`, the string comparison
`categoryToUpdate.Stock < orderToApprove.Quantity`, and the numeric
comparison `voucherCodes.length < orderToApprove.Quantity`. -/
def admApprove (st : SheetState) (orderId : String)
    (catWriteOk ordWriteOk : Bool) : ApproveOut :=
  match st.orders.find? (fun o => o.OrderID == orderId) with
  | none => ⟨.notFoundOrProcessed, st, false⟩
  | some o =>
    if o.Status ≠ "Pending" then ⟨.notFoundOrProcessed, st, false⟩
    else
      match st.categories.find? (fun c => c.CategoryID == o.Category) with
      | none => ⟨.stockLow, st, false⟩
      | some c =>
        if jsStrLt c.Stock o.Quantity then ⟨.stockLow, st, false⟩
        else
          let pool := splitPoolS c.VoucherCodes
          if jsLtNatOpt pool.length (jsNumberNat o.Quantity) then
            ⟨.insufficientCodes, st, false⟩
          else
            let q := (jsParseIntNat o.Quantity).getD 0
            let released := pool.take q
            let remaining := pool.drop q
            let newStock := jsSubToStr (jsNumberNat c.Stock) (jsParseIntNat o.Quantity)
            if catWriteOk = false then ⟨.aborted, st, false⟩
            else
              let st1 : SheetState :=
                { st with categories :=
                    (updateFirst (fun c2 => c2.CategoryID == c.CategoryID)
                      (fun c2 => { c2 with Stock := newStock,
                                           VoucherCodes := joinNl remaining })
                      st.categories) }
              if ordWriteOk = false then ⟨.aborted, st1, false⟩
              else
                let st2 : SheetState :=
                  { st1 with orders :=
                      (updateFirst (fun o2 => o2.OrderID == orderId)
                        (fun o2 => { o2 with Status := "Successful",
                                             VoucherCodeDelivered := joinNl released })
                        st1.orders) }
                ⟨.approved released, st2, true⟩

/-- Result of one run of the decline branch. -/
structure DeclineOut where
  state : SheetState
  userDeclineMsg : Bool
deriving DecidableEq, Repr

/-- The `adm_decline_` branch of the admin callback handler
(`src/unnamed/part_000`, lines 606-616).  It calls
`updateRow('Orders', 'OrderID', orderId, { Status: 'Declined' })`
unconditionally - there is no lookup of the current status before the
write - then re-reads the orders and notifies the buyer when the order
exists. -/
def admDecline (st : SheetState) (orderId : String) : DeclineOut :=
  let st1 : SheetState :=
    { st with orders :=
        (updateFirst (fun o => o.OrderID == orderId)
          (fun o => { o with Status := "Declined" }) st.orders) }
  match st1.orders.find? (fun o => o.OrderID == orderId) with
  | some _ => ⟨st1, true⟩
  | none => ⟨st1, false⟩

/-- Codes extracted from one admin stock message:
`msg.text.split(/[\n,]+/).map(s => s.trim()).filter(s => s.length > 0)`
(`src/index.js`, line 470). -/
def splitCodesInput (text : String) : List String :=
  (((splitSepL text.data).map trimL).filter (fun l => 0 < l.length)).map
    (fun l => (⟨l⟩ : String))

/-- The `adm_waiting_for_voucher_codes` branch of the admin message
handler (`src/index.js`, lines 468-483): parse the pasted codes, append
them to the category's pool, and store the new pool together with
`Stock := updatedVouchers.length.toString()`. -/
def admAppendCodes (st : SheetState) (categoryId text : String) : SheetState :=
  let newCodes := splitCodesInput text
  match st.categories.find? (fun c => c.CategoryID == categoryId) with
  | none => st
  | some c =>
    let current := splitPoolS c.VoucherCodes
    let updated := current ++ newCodes
    { st with categories :=
        (updateFirst (fun c2 => c2.CategoryID == categoryId)
          (fun c2 => { c2 with VoucherCodes := joinNl updated,
                               Stock := natRepr updated.length })
          st.categories) }

/-- The category scan inside the `adm_waiting_for_code_to_remove` branch
(`src/index.js`, lines 484-503): for each category in order, filter the
code out of its pool; the first category whose pool shrank is rewritten
with `Stock := voucherCodes.length.toString()` and the loop breaks. -/
def removeCodeScan (code : String) : List Category → List Category
  | [] => []
  | c :: cs =>
    let pool := splitPoolS c.VoucherCodes
    let filtered := pool.filter (fun x => x ≠ code)
    if filtered.length < pool.length then
      { c with VoucherCodes := joinNl filtered,
               Stock := natRepr filtered.length } :: cs
    else c :: removeCodeScan code cs

/-- The `adm_waiting_for_code_to_remove` branch of the admin message
handler: the scanned code is `msg.text.trim()`. -/
def admRemoveCode (st : SheetState) (text : String) : SheetState :=
  { st with categories := removeCodeScan (jsTrim text) st.categories }

/-- The tier pick of `processQuantityAndShowPayment`
(`src/unnamed/part_000`, lines 291-296): a descending threshold scan
over `||` chains of the price cells. -/
def pickRate (cat : Category) (qty : Nat) : String :=
  if qty ≥ 20 then
    jsOr cat.Price20Plus (jsOr cat.Price10 (jsOr cat.Price5 (jsOr cat.Price1 cat.Price)))
  else if qty ≥ 10 then jsOr cat.Price10 (jsOr cat.Price5 (jsOr cat.Price1 cat.Price))
  else if qty ≥ 5 then jsOr cat.Price5 (jsOr cat.Price1 cat.Price)
  else jsOr cat.Price1 cat.Price

/-- JavaScript `parseFloat` restricted to the integer-valued price
strings the claims exercise (leading whitespace then a digit prefix;
fractional cells are outside every claim's inputs). -/
def jsParseFloatNat (s : String) : Option Nat := jsParseIntNat s

/-- The resolved unit price: `parseFloat` of the picked tier cell, with
the `isNaN(rate) || rate <= 0` rejection of lines 298-301 (`none` is the
"Pricing not set" error). -/
def resolveRate (cat : Category) (qty : Nat) : Option Nat :=
  match jsParseFloatNat (pickRate cat qty) with
  | none => none
  | some r => if r = 0 then none else some r

/-- The full JavaScript whitespace set (`StrWhiteSpace`), as stripped by
`String.prototype.trim` and skipped by `parseInt` on raw user text:
ASCII whitespace plus NBSP, Ogham space, the U+2000..U+200A spaces, the
line/paragraph separators, narrow/medium spaces, ideographic space and
the BOM. -/
def jsWsChar (c : Char) : Bool :=
  decide (c ∈ ([' ', '\t', '\n', '\r', '\x0b', '\x0c', '\u00A0', '\u1680',
    '\u2000', '\u2001', '\u2002', '\u2003', '\u2004', '\u2005', '\u2006',
    '\u2007', '\u2008', '\u2009', '\u200A', '\u2028', '\u2029', '\u202F',
    '\u205F', '\u3000', '\uFEFF'] : List Char))

/-- `String.prototype.trim` on raw user text (full whitespace set), on
character lists. -/
def trimUL (l : List Char) : List Char :=
  ((l.dropWhile jsWsChar).reverse.dropWhile jsWsChar).reverse

/-- `String.prototype.trim` on raw user text. -/
def jsTrimU (s : String) : String := ⟨trimUL s.data⟩

/-- JavaScript `s.length`: the UTF-16 code-unit count (characters above
U+FFFF take a surrogate pair). -/
def utf16Len : List Char → Nat
  | [] => 0
  | c :: cs => (if c.toNat ≥ 65536 then 2 else 1) + utf16Len cs

/-- Hexadecimal digit test for `parseInt`'s radix-16 branch. -/
def isHexDigitB (c : Char) : Bool :=
  c.isDigit || ('a' ≤ c && c ≤ 'f') || ('A' ≤ c && c ≤ 'F')

/-- Value of one hexadecimal digit. -/
def hexDigitVal (c : Char) : Nat :=
  if c.isDigit then c.toNat - 48
  else if 'a' ≤ c && c ≤ 'f' then c.toNat - 87
  else c.toNat - 55

/-- Value of a list of hexadecimal digits (most significant first). -/
def hexVal : List Char → Nat → Nat
  | [], acc => acc
  | c :: cs, acc => hexVal cs (acc * 16 + hexDigitVal c)

/-- JavaScript `parseInt(s)` (radix unspecified) on raw user text, the
ECMA algorithm: skip leading whitespace, note one optional `+`/`-` sign,
strip an optional `0x`/`0X` prefix (switching to hexadecimal digits),
then read the longest digit prefix - `NaN` (`none`) if it is empty.
`parseInt('-12345678901')` is a number, `parseInt('0xZZZZZZZZZZ')` is
`NaN`. -/
def jsParseIntFull (s : String) : Option Int :=
  let t := s.data.dropWhile jsWsChar
  let neg := decide (t.head? = some '-')
  let t2 := if t.head? = some '-' ∨ t.head? = some '+' then t.tail else t
  let hex := decide (t2.take 2 = ['0', 'x']) || decide (t2.take 2 = ['0', 'X'])
  let t3 := if hex = true then t2.drop 2 else t2
  let digs := if hex = true then t3.takeWhile isHexDigitB
              else t3.takeWhile Char.isDigit
  if digs = [] then none
  else
    let v : Int := if hex = true then ((hexVal digs 0 : Nat) : Int)
                   else ((digitsVal digs 0 : Nat) : Int)
    if neg = true then some (-v) else some v

/-- The `waiting_for_utr` acceptance test (`src/index.js`, lines 402-403
and `src/unnamed/part_000`, lines 353-354):
`utr = msg.text.trim()`, accepted iff
`utr.length === 12 && !isNaN(parseInt(utr))`.  This branch receives raw
user text, so trim, `length` and `parseInt` are the full JavaScript
algorithms (`jsTrimU`, `utf16Len`, `jsParseIntFull`), not the
digit-cell-only readers used for the bot-written sheet cells. -/
def utrValid (text : String) : Bool :=
  let utr := jsTrimU text
  utf16Len utr.data == 12 && (jsParseIntFull utr).isSome

/-- Modelled from the spec: `submitOrder` as called by the
`waiting_for_utr` branch of `src/index.js` (four arguments, the caller's
`msg.from.first_name` passed in) is not defined under `src`; the variant
in `src/unnamed/part_000` builds the same `orderData` row but reads
`msg.from.first_name` with no `msg` in scope.  Following the spec
("persists the order with `status=Pending`", no inventory touched at
submission) and `part_000`'s `orderData` layout, the append writes the
row with status `Pending`, an empty delivered-codes cell, and
`Quantity = qty.toString()`; the fresh random `orderId`, the creation
timestamp and the formatted total are parameters. -/
def submitOrder (st : SheetState) (userId firstName orderId createdAt : String)
    (categoryId : String) (qty : Nat) (total utr : String) : SheetState :=
  { st with orders := st.orders ++
      [⟨orderId, userId, firstName, categoryId, natRepr qty, total, utr,
        "Pending", "", createdAt⟩] }

/-- Visible outcome of one `waiting_for_utr` message. -/
inductive UtrOut
  | submitted (st : SheetState)
  | reprompt
deriving DecidableEq, Repr

/-- One message processed in state `waiting_for_utr` (`src/index.js`,
lines 401-409): a valid UTR submits the order, anything else re-prompts
and stays in `waiting_for_utr`. -/
def utrStep (st : SheetState) (userId firstName orderId createdAt : String)
    (categoryId : String) (qty : Nat) (total : String) (text : String) : UtrOut :=
  if utrValid text then
    .submitted (submitOrder st userId firstName orderId createdAt categoryId qty
      total (jsTrimU text))
  else .reprompt

/-- Visible outcome of one `waiting_for_recovery_oid` message. -/
inductive RecoverResult
  | notFound
  | codes (c : String)
  | statusMsg (s : String)
deriving DecidableEq, Repr

/-- The `waiting_for_recovery_oid` branch (`src/index.js`, lines 413-426;
identical logic in `src/unnamed/part_000`, lines 441-454): look the order
up by `msg.text.trim()`; `!order || order.UserID !== userId.toString()`
is answered with "Order not found", a `Successful` order yields its
delivered codes, anything else only its status.  `userId` here is the
requesting user's id as the string `userId.toString()`. -/
def recoverStep (orders : List Order) (userId text : String) : RecoverResult :=
  let orderId := jsTrim text
  match orders.find? (fun o => o.OrderID == orderId) with
  | none => .notFound
  | some o =>
    if o.UserID ≠ userId then .notFound
    else if o.Status = "Successful" then .codes o.VoucherCodeDelivered
    else .statusMsg o.Status

/-- Visible outcome of one `waiting_for_captcha` message. -/
inductive CaptchaOut
  | verified (users : List UserRow)
  | retry
deriving DecidableEq, Repr

/-- The `waiting_for_captcha` branch (`src/unnamed/part_000`, lines
144-164; same logic in `src/index.js`, lines 357-377): accept iff
`parseInt(msg.text)` equals the stored answer; on success update the
existing `Users` row to `{ Status: 'Active', Verified: 'Yes' }` (there is
no check of the row's current `Status`), or append a fresh
`Active`/`Yes` row; on failure re-issue a captcha.  The `Users` row is
matched by `u.UserID == userId` (digit-string cells, so string equality
coincides with the loose comparison). -/
def captchaStep (users : List UserRow) (userId name joinedAt : String)
    (expected : Nat) (text : String) : CaptchaOut :=
  match jsParseIntNat text with
  | none => .retry
  | some v =>
    if v = expected then
      .verified
        (match users.find? (fun u => u.UserID == userId) with
         | some _ =>
             updateFirst (fun u => u.UserID == userId)
               (fun u => { u with Status := "Active", Verified := "Yes" }) users
         | none => users ++ [⟨userId, name, joinedAt, "Active", "Yes"⟩])
    else .retry

/-- The `check_join` verification branch (`src/unnamed/part_000`, lines
109-124; `src/index.js`, lines 199-211): proceed to the captcha iff the
channel-membership status is `member`, `administrator` or `creator`.
The branch consults nothing else - in particular it never reads the
`Users` sheet, so a blocked user reaches the captcha like anyone else. -/
def checkJoinProceeds (membershipStatus : String) : Bool :=
  membershipStatus = "member" || membershipStatus = "administrator" ||
    membershipStatus = "creator"

/-- Session-state effect of one branch of the `src/index.js`
`callback_query` handler (lines 191-348).  `setState s` is a branch that
assigns `userStates[userId] = { state: s, ... }`; `other` is a branch
that runs without writing a session state (order approve/decline,
category delete, stats, ...); `noBranch` means no branch matched.  That
handler performs NO admin-identity check before any `adm_` branch (unlike
the admin callback handler of `src/unnamed/part_000`, lines 549-554,
which returns for non-admin callers before dispatching). -/
inductive CbEffect
  | setState (s : String)
  | other
  | noBranch
deriving DecidableEq, Repr

/-- Matching of `data.startsWith(p)`. -/
def strBeginsWith (s p : String) : Bool := p.data.isPrefixOf s.data

/-- The branch chain of the `src/index.js` `callback_query` handler, in
source order, restricted to its session-state effect. -/
def indexCbEffect (data : String) : CbEffect :=
  if data = "check_join" then .other
  else if strBeginsWith data "select_cat_" then .setState "waiting_for_qty_selection"
  else if strBeginsWith data "qty_btn_custom_" then .setState "waiting_for_custom_qty_input"
  else if strBeginsWith data "qty_btn_" then .other
  else if data = "submit_proof" then .setState "waiting_for_screenshot"
  else if strBeginsWith data "adm_approve_" then .other
  else if strBeginsWith data "adm_decline_" then .other
  else if data = "adm_add_cat_prompt" then .setState "adm_waiting_for_cat_value"
  else if data = "adm_del_cat_list" then .other
  else if strBeginsWith data "adm_del_cat_confirm_" then .other
  else if strBeginsWith data "adm_add_stock_select_cat_" then .setState "adm_waiting_for_voucher_codes"
  else if strBeginsWith data "adm_add_stock_prompt" then .setState "adm_waiting_for_stock_cat_select"
  else if strBeginsWith data "adm_view_stock_codes_" then .other
  else if strBeginsWith data "adm_remove_stock_prompt" then .setState "adm_waiting_for_code_to_remove"
  else if data = "adm_pricing_menu" then .other
  else if strBeginsWith data "adm_input_tier_price_" then .setState "adm_waiting_for_tier_price_input"
  else if strBeginsWith data "adm_select_tier_pricing_" then .setState "adm_waiting_for_tier_selection"
  else if data = "adm_bc_prompt" then .setState "adm_waiting_for_broadcast_message"
  else if data = "adm_dm_prompt" then .setState "adm_waiting_for_dm_target_id"
  else if data = "adm_block_prompt" then .setState "adm_waiting_for_block_id"
  else .noBranch

/-- Conversation sessions: `userStates` as a user-id-keyed association
list holding each session's state string. -/
def setSession (sessions : List (String × String)) (userId s : String) :
    List (String × String) :=
  match sessions.find? (fun e => e.fst == userId) with
  | some _ => updateFirst (fun e => e.fst == userId) (fun e => (e.fst, s)) sessions
  | none => sessions ++ [(userId, s)]

/-- Session-state update performed by one `callback_query` event in
`src/index.js` for the pressing user - whoever that user is; the handler
never compares `userId` against `ADMIN_ID`. -/
def indexCbStep (sessions : List (String × String)) (userId data : String) :
    List (String × String) :=
  match indexCbEffect data with
  | .setState s => setSession sessions userId s
  | _ => sessions

/-- States of the admin conversation family (`AdminAwaiting*` in the
spec): exactly the `adm_`-prefixed session states. -/
def isAdminState (s : String) : Bool := strBeginsWith s "adm_"

/-- A successful `find?` splits the list at the first match. -/
theorem find?_split {α : Type} (p : α → Bool) :
    ∀ (l : List α) (a : α), l.find? p = some a →
      ∃ l1 l2, l = l1 ++ a :: l2 ∧ (∀ x ∈ l1, p x = false) ∧ p a = true := by
  intro l
  induction l with
  | nil => intro a h; simp [List.find?] at h
  | cons x xs ih =>
    intro a h
    cases hp : p x with
    | true =>
      rw [List.find?_cons_of_pos _ hp] at h
      obtain rfl : x = a := by injection h
      exact ⟨[], xs, rfl, by simp, hp⟩
    | false =>
      rw [List.find?_cons_of_neg _ (by simp [hp])] at h
      obtain ⟨l1, l2, rfl, hl1, ha⟩ := ih a h
      exact ⟨x :: l1, l2, rfl, by
        intro y hy
        rcases List.mem_cons.mp hy with rfl | hy
        · exact hp
        · exact hl1 y hy, ha⟩

/-- `updateFirst` rewrites exactly the head of the matching suffix. -/
theorem updateFirst_append {α : Type} (p : α → Bool) (f : α → α) :
    ∀ (l1 : List α) (a : α) (l2 : List α), (∀ x ∈ l1, p x = false) → p a = true →
      updateFirst p f (l1 ++ a :: l2) = l1 ++ f a :: l2 := by
  intro l1
  induction l1 with
  | nil => intro a l2 _ ha; simp [updateFirst, ha]
  | cons x xs ih =>
    intro a l2 h1 ha
    have hx : p x = false := h1 x (List.mem_cons_self x xs)
    simp only [List.cons_append, updateFirst, hx, Bool.false_eq_true, if_false,
      List.append_eq]
    rw [ih a l2 (fun y hy => h1 y (List.mem_cons_of_mem x hy)) ha]

/-- `find?` over a list whose prefix has no match returns the split
point. -/
theorem find?_middle {α : Type} (p : α → Bool) :
    ∀ (l1 : List α) (b : α) (l2 : List α), (∀ x ∈ l1, p x = false) → p b = true →
      (l1 ++ b :: l2).find? p = some b := by
  intro l1
  induction l1 with
  | nil => intro b l2 _ hb; simpa using List.find?_cons_of_pos l2 hb
  | cons x xs ih =>
    intro b l2 h1 hb
    have hx : p x = false := h1 x (List.mem_cons_self x xs)
    simp only [List.cons_append]
    rw [List.find?_cons_of_neg _ (by simp [hx])]
    exact ih b l2 (fun y hy => h1 y (List.mem_cons_of_mem x hy)) hb

/-- Membership after `updateFirst`: each element is an old element or the
image of one. -/
theorem mem_updateFirst {α : Type} (p : α → Bool) (f : α → α) :
    ∀ (l : List α) (x : α), x ∈ updateFirst p f l → x ∈ l ∨ ∃ y ∈ l, x = f y := by
  intro l
  induction l with
  | nil => intro x h; simp [updateFirst] at h
  | cons a as ih =>
    intro x h
    by_cases hp : p a = true
    · simp only [updateFirst, hp, if_true] at h
      rcases List.mem_cons.mp h with rfl | h
      · exact Or.inr ⟨a, List.mem_cons_self a as, rfl⟩
      · exact Or.inl (List.mem_cons_of_mem a h)
    · simp only [updateFirst, hp, if_false] at h
      rcases List.mem_cons.mp h with rfl | h
      · exact Or.inl (List.mem_cons_self x as)
      · rcases ih x h with h | ⟨y, hy, rfl⟩
        · exact Or.inl (List.mem_cons_of_mem a h)
        · exact Or.inr ⟨y, List.mem_cons_of_mem a hy, rfl⟩

/-- Appending a digit multiplies the accumulated value by ten. -/
theorem digitsVal_append (c : Char) :
    ∀ (l : List Char) (acc : Nat),
      digitsVal (l ++ [c]) acc = digitsVal l acc * 10 + (c.toNat - 48) := by
  intro l
  induction l with
  | nil => intro acc; simp [digitsVal]
  | cons d ds ih =>
    intro acc
    simp only [List.cons_append, digitsVal, List.append_eq]
    rw [ih]

/-- The fuelled decimal printer emits a nonempty all-digit list whose
value is the printed number, whenever the fuel exceeds it. -/
theorem natReprAux_spec :
    ∀ (fuel n : Nat), n < fuel →
      natReprAux fuel n ≠ [] ∧ (natReprAux fuel n).all Char.isDigit = true ∧
        digitsVal (natReprAux fuel n) 0 = n := by
  intro fuel
  induction fuel with
  | zero => intro n h; omega
  | succ fu ih =>
    intro n h
    by_cases h10 : n < 10
    · have hd : (Char.ofNat (48 + n)).isDigit = true ∧
          (Char.ofNat (48 + n)).toNat - 48 = n := by
        interval_cases n <;> exact ⟨by decide, by decide⟩
      refine ⟨by simp [natReprAux, h10], ?_, ?_⟩
      · simp [natReprAux, h10, hd.1]
      · simp [natReprAux, h10, digitsVal, hd.2]
    · have hn0 : 0 < n := by omega
      have hdiv : n / 10 < fu := by
        have h1 : n / 10 < n := Nat.div_lt_self hn0 (by omega)
        omega
      obtain ⟨ihne, ihall, ihval⟩ := ih (n / 10) hdiv
      have hm : n % 10 < 10 := Nat.mod_lt n (by omega)
      have hd : (Char.ofNat (48 + n % 10)).isDigit = true ∧
          (Char.ofNat (48 + n % 10)).toNat - 48 = n % 10 := by
        set k := n % 10 with hk
        interval_cases k <;> exact ⟨by decide, by decide⟩
      refine ⟨by simp [natReprAux, h10], ?_, ?_⟩
      · simp [natReprAux, h10, List.all_append, ihall, hd.1]
      · simp only [natReprAux, h10, if_false]
        rw [digitsVal_append, ihval, hd.2]
        omega

/-- The printed digits of `n` are nonempty. -/
theorem natRepr_ne_nil (n : Nat) : (natRepr n).data ≠ [] :=
  (natReprAux_spec (n + 1) n (Nat.lt_succ_self n)).1

/-- The printed digits of `n` are all decimal digits. -/
theorem natRepr_all_digit (n : Nat) : (natRepr n).data.all Char.isDigit = true :=
  (natReprAux_spec (n + 1) n (Nat.lt_succ_self n)).2.1

/-- Reading the printed digits of `n` gives back `n`. -/
theorem digitsVal_natRepr (n : Nat) : digitsVal (natRepr n).data 0 = n :=
  (natReprAux_spec (n + 1) n (Nat.lt_succ_self n)).2.2

/-- A decimal digit is not whitespace. -/
theorem digit_not_ws (c : Char) (h : c.isDigit = true) : isWsChar c = false := by
  by_contra hw
  have hw' : isWsChar c = true := by
    cases hws : isWsChar c
    · exact absurd hws hw
    · rfl
  simp only [isWsChar, Bool.or_eq_true, decide_eq_true_eq] at hw'
  rcases hw' with ((((h1 | h1) | h1) | h1) | h1) | h1 <;> subst h1 <;>
    exact absurd h (by decide)

/-- Dropping whitespace from an all-digit list is the identity. -/
theorem dropWs_all_digit (l : List Char) (h : l.all Char.isDigit = true) :
    l.dropWhile isWsChar = l := by
  cases l with
  | nil => rfl
  | cons c cs =>
    have hc : c.isDigit = true := by
      have := List.all_eq_true.mp h c (List.mem_cons_self c cs)
      simpa using this
    simp [List.dropWhile_cons, digit_not_ws c hc]

/-- Trimming an all-digit list is the identity. -/
theorem trimL_all_digit (l : List Char) (h : l.all Char.isDigit = true) :
    trimL l = l := by
  have hrev : l.reverse.all Char.isDigit = true := by
    simpa [List.all_reverse] using h
  simp [trimL, dropWs, dropWs_all_digit l h, dropWs_all_digit l.reverse hrev]

/-- Taking digits from an all-digit list is the identity. -/
theorem takeWhile_all_digit (l : List Char) (h : l.all Char.isDigit = true) :
    l.takeWhile Char.isDigit = l :=
  List.takeWhile_eq_self_iff.mpr (fun x hx => List.all_eq_true.mp h x hx)

/-- `Number` round-trips on the decimal cells the code writes. -/
theorem jsNumberNat_natRepr (n : Nat) : jsNumberNat (natRepr n) = some n := by
  simp only [jsNumberNat, trimL_all_digit _ (natRepr_all_digit n)]
  simp [natRepr_ne_nil n, natRepr_all_digit n, digitsVal_natRepr n]

/-- `parseInt` round-trips on the decimal cells the code writes. -/
theorem jsParseIntNat_natRepr (n : Nat) : jsParseIntNat (natRepr n) = some n := by
  simp only [jsParseIntNat, dropWs_all_digit _ (natRepr_all_digit n),
    takeWhile_all_digit _ (natRepr_all_digit n)]
  simp [natRepr_ne_nil n, digitsVal_natRepr n]

/-- `splitNl` never returns an empty list of segments. -/
theorem splitNl_ne_nil : ∀ l : List Char, splitNl l ≠ [] := by
  intro l
  induction l with
  | nil => simp [splitNl]
  | cons c cs ih =>
    by_cases hc : c = '\n'
    · simp [splitNl, hc]
    · simp only [splitNl, hc, if_false]
      cases hs : splitNl cs with
      | nil => simp
      | cons r rs => simp

/-- Splitting a newline-free list yields the single segment. -/
theorem splitNl_no_nl : ∀ l : List Char, '\n' ∉ l → splitNl l = [l] := by
  intro l
  induction l with
  | nil => intro _; rfl
  | cons c cs ih =>
    intro h
    have hc : c ≠ '\n' := fun hh => h (hh ▸ List.mem_cons_self c cs)
    have hcs : '\n' ∉ cs := fun hh => h (List.mem_cons_of_mem c hh)
    simp only [splitNl, hc, if_false]
    rw [ih hcs]

/-- Splitting after a newline-free prefix peels the prefix segment. -/
theorem splitNl_append : ∀ (l z : List Char), '\n' ∉ l →
    splitNl (l ++ '\n' :: z) = l :: splitNl z := by
  intro l
  induction l with
  | nil => intro z _; simp [splitNl]
  | cons c cs ih =>
    intro z h
    have hc : c ≠ '\n' := fun hh => h (hh ▸ List.mem_cons_self c cs)
    have hcs : '\n' ∉ cs := fun hh => h (List.mem_cons_of_mem c hh)
    simp only [List.cons_append, splitNl, hc, if_false, List.append_eq]
    rw [ih z hcs]

/-- Segments produced by `splitNl` contain no newline. -/
theorem splitNl_mem_no_nl : ∀ (l m : List Char), m ∈ splitNl l → '\n' ∉ m := by
  intro l
  induction l with
  | nil =>
    intro m hm
    simp only [splitNl, List.mem_singleton] at hm
    subst hm; simp
  | cons c cs ih =>
    intro m hm
    by_cases hc : c = '\n'
    · simp only [splitNl, hc, if_true, List.mem_cons] at hm
      rcases hm with rfl | hm
      · simp
      · exact ih m hm
    · simp only [splitNl, hc, if_false] at hm
      cases hs : splitNl cs with
      | nil => exact absurd hs (splitNl_ne_nil cs)
      | cons r rs =>
        rw [hs] at hm
        rcases List.mem_cons.mp hm with rfl | hm
        · intro hmem
          rcases List.mem_cons.mp hmem with hh | hh
          · exact hc hh.symm
          · exact ih r (hs ▸ List.mem_cons_self r rs) hh
        · exact ih m (hs ▸ List.mem_cons_of_mem r hm)

/-- Segments produced by `splitSepL` contain no newline. -/
theorem splitSepL_ne_nil : ∀ l : List Char, splitSepL l ≠ [] := by
  intro l
  induction l with
  | nil => simp [splitSepL]
  | cons c cs ih =>
    by_cases hc : (c = '\n' || c = ',') = true
    · simp [splitSepL, hc]
    · simp only [splitSepL, hc, if_false]
      cases hs : splitSepL cs with
      | nil => simp
      | cons r rs => simp

/-- Segments produced by the stock-input split contain no newline. -/
theorem splitSepL_mem_no_nl : ∀ (l m : List Char), m ∈ splitSepL l → '\n' ∉ m := by
  intro l
  induction l with
  | nil =>
    intro m hm
    simp only [splitSepL, List.mem_singleton] at hm
    subst hm; simp
  | cons c cs ih =>
    intro m hm
    by_cases hc : (c = '\n' || c = ',') = true
    · simp only [splitSepL, hc, if_true, List.mem_cons] at hm
      rcases hm with rfl | hm
      · simp
      · exact ih m hm
    · have hcn : c ≠ '\n' := by
        intro hh
        exact hc (by simp [hh])
      simp only [splitSepL, hc, if_false] at hm
      cases hs : splitSepL cs with
      | nil => exact absurd hs (splitSepL_ne_nil cs)
      | cons r rs =>
        rw [hs] at hm
        rcases List.mem_cons.mp hm with rfl | hm
        · intro hmem
          rcases List.mem_cons.mp hmem with hh | hh
          · exact hcn hh.symm
          · exact ih r (hs ▸ List.mem_cons_self r rs) hh
        · exact ih m (hs ▸ List.mem_cons_of_mem r hm)

/-- Characters surviving a trim were in the original list. -/
theorem mem_trimL (l : List Char) (c : Char) (h : c ∈ trimL l) : c ∈ l := by
  simp only [trimL, dropWs, List.mem_reverse] at h
  have h1 : c ∈ (l.dropWhile isWsChar).reverse :=
    (List.dropWhile_sublist isWsChar).subset h
  rw [List.mem_reverse] at h1
  exact (List.dropWhile_sublist isWsChar).subset h1

/-- Dropping a run that cannot contain a `p`-witness preserves `any p`. -/
theorem any_dropWhile (p q : Char → Bool) (hpq : ∀ c, p c = true → q c = false) :
    ∀ l : List Char, l.any p = true → (l.dropWhile q).any p = true := by
  intro l
  induction l with
  | nil => intro h; simp at h
  | cons c cs ih =>
    intro h
    by_cases hq : q c = true
    · simp only [List.dropWhile_cons, hq, if_true]
      rcases List.any_eq_true.mp h with ⟨x, hx, hpx⟩
      rcases List.mem_cons.mp hx with rfl | hx
      · exact absurd (hpq x hpx) (by simp [hq])
      · exact ih (List.any_eq_true.mpr ⟨x, hx, hpx⟩)
    · simp only [List.dropWhile_cons, hq, if_false]
      exact h

/-- Trimming preserves the presence of a non-whitespace character. -/
theorem any_trimL (l : List Char)
    (h : l.any (fun c => !isWsChar c) = true) :
    (trimL l).any (fun c => !isWsChar c) = true := by
  have hpq : ∀ c : Char, (!isWsChar c) = true → isWsChar c = false := by
    intro c hc; simpa using hc
  have h1 := any_dropWhile _ isWsChar hpq l h
  have h2 : (l.dropWhile isWsChar).reverse.any (fun c => !isWsChar c) = true := by
    simpa [List.any_reverse] using h1
  have h3 := any_dropWhile _ isWsChar hpq _ h2
  simpa [trimL, dropWs, List.any_reverse] using h3

/-- A list with a non-whitespace character does not trim to nothing. -/
theorem trimL_ne_nil_of_any (l : List Char)
    (h : l.any (fun c => !isWsChar c) = true) : trimL l ≠ [] := by
  intro hnil
  have := any_trimL l h
  rw [hnil] at this
  simp at this

/-- A list that does not trim to nothing has a non-whitespace character. -/
theorem any_of_trimL_ne_nil (l : List Char) (h : trimL l ≠ []) :
    l.any (fun c => !isWsChar c) = true := by
  by_contra hany
  have hall : ∀ c ∈ l, isWsChar c = true := by
    intro c hc
    cases hw : isWsChar c
    · exact absurd (List.any_eq_true.mpr ⟨c, hc, by simp [hw]⟩) hany
    · rfl
  have hdrop : l.dropWhile isWsChar = [] := List.dropWhile_eq_nil_iff.mpr hall
  exact h (by simp [trimL, dropWs, hdrop])

/-- Trimming keeps a newline-free list newline-free. -/
theorem no_nl_trimL (l : List Char) (h : '\n' ∉ l) : '\n' ∉ trimL l :=
  fun hmem => h (mem_trimL l '\n' hmem)

/-- Every parsed stock-input code is newline-free and survives a trim
(the shape needed for the pool round-trip). -/
theorem splitCodesInput_poolish (text : String) :
    ∀ x ∈ splitCodesInput text, '\n' ∉ x.data ∧ trimL x.data ≠ [] := by
  intro x hx
  simp only [splitCodesInput, List.mem_map] at hx
  obtain ⟨l, hl, rfl⟩ := hx
  rw [List.mem_filter] at hl
  obtain ⟨hlmem, hlen⟩ := hl
  rw [List.mem_map] at hlmem
  obtain ⟨seg, hseg, rfl⟩ := hlmem
  have hlne : trimL seg ≠ [] := by
    intro hh
    rw [hh] at hlen
    simp at hlen
  have hnl : '\n' ∉ trimL seg :=
    no_nl_trimL seg (splitSepL_mem_no_nl text.data seg hseg)
  refine ⟨hnl, ?_⟩
  exact trimL_ne_nil_of_any _ (any_trimL seg (any_of_trimL_ne_nil seg hlne))

/-- Pool elements are newline-free and survive a trim. -/
theorem mem_splitPoolS (s : String) :
    ∀ x ∈ splitPoolS s, '\n' ∉ x.data ∧ trimL x.data ≠ [] := by
  intro x hx
  simp only [splitPoolS, List.mem_map] at hx
  obtain ⟨l, hl, rfl⟩ := hx
  rw [splitPoolL, List.mem_filter] at hl
  obtain ⟨hlmem, hlen⟩ := hl
  refine ⟨splitNl_mem_no_nl s.data l hlmem, ?_⟩
  intro hh
  rw [hh] at hlen
  simp at hlen

/-- Eta for strings. -/
theorem string_mk_data (s : String) : (⟨s.data⟩ : String) = s := rfl

/-- Joining a list of trim-surviving, newline-free segments and parsing
it back as a pool recovers the list (list-of-characters core). -/
theorem splitPoolL_join :
    ∀ ls : List (List Char), (∀ x ∈ ls, '\n' ∉ x ∧ trimL x ≠ []) →
      splitPoolL (joinNlL ls) = ls := by
  intro ls
  induction ls with
  | nil => intro _; rfl
  | cons x rest ih =>
    intro h
    obtain ⟨hx1, hx2⟩ := h x (List.mem_cons_self x rest)
    have hxkeep : decide (0 < (trimL x).length) = true := by
      simp [Nat.pos_of_ne_zero, List.length_eq_zero, hx2]
    cases rest with
    | nil =>
      simp only [joinNlL, splitPoolL]
      rw [splitNl_no_nl x hx1]
      simp [List.filter, hxkeep]
    | cons y rest2 =>
      have hrest : ∀ z ∈ y :: rest2, '\n' ∉ z ∧ trimL z ≠ [] := by
        intro z hz
        exact h z (List.mem_cons_of_mem x hz)
      simp only [joinNlL, splitPoolL]
      rw [splitNl_append x (joinNlL (y :: rest2)) hx1]
      simp only [List.filter, hxkeep]
      have := ih hrest
      simp only [splitPoolL] at this
      rw [this]

/-- Joining a pool-shaped list of code strings and re-parsing it
recovers the same list. -/
theorem splitPoolS_join (ls : List String)
    (h : ∀ x ∈ ls, '\n' ∉ x.data ∧ trimL x.data ≠ []) :
    splitPoolS (joinNl ls) = ls := by
  have hlists : ∀ x ∈ ls.map String.data, '\n' ∉ x ∧ trimL x ≠ [] := by
    intro x hx
    rw [List.mem_map] at hx
    obtain ⟨s, hs, rfl⟩ := hx
    exact h s hs
  simp only [splitPoolS, joinNl]
  rw [splitPoolL_join (ls.map String.data) hlists]
  rw [List.map_map]
  have : ((fun l => (⟨l⟩ : String)) ∘ String.data) = id := by
    funext s
    exact string_mk_data s
  rw [this, List.map_id]

/-- The head surviving a `dropWhile` refutes the predicate. -/
theorem dropWhile_head_false (p : Char → Bool) :
    ∀ (l : List Char) (c : Char), (l.dropWhile p).head? = some c → p c = false := by
  intro l
  induction l with
  | nil => intro c h; simp at h
  | cons a as ih =>
    intro c h
    by_cases hp : p a = true
    · rw [List.dropWhile_cons, if_pos hp] at h
      exact ih c h
    · rw [List.dropWhile_cons, if_neg hp] at h
      have hac : a = c := by simpa using h
      subst hac
      simp only [Bool.not_eq_true] at hp
      exact hp

/-- A nonempty `dropWhile` keeps the original last element. -/
theorem dropWhile_getLast? (p : Char → Bool) :
    ∀ l : List Char, l.dropWhile p ≠ [] → (l.dropWhile p).getLast? = l.getLast? := by
  intro l
  induction l with
  | nil => intro h; simp at h
  | cons a as ih =>
    intro h
    by_cases hp : p a = true
    · rw [List.dropWhile_cons, if_pos hp] at h ⊢
      have has : as ≠ [] := by
        intro hnil
        rw [hnil] at h
        simp at h
      cases as with
      | nil => exact absurd rfl has
      | cons b bs => rw [ih h, List.getLast?_cons_cons]
    · rw [List.dropWhile_cons, if_neg hp]

/-- The head of a trimmed list is not whitespace. -/
theorem head_trimL_not_ws (l : List Char) (c : Char)
    (h : (trimL l).head? = some c) : isWsChar c = false := by
  simp only [trimL] at h
  rw [List.head?_reverse] at h
  have hne : (dropWs l).reverse.dropWhile isWsChar ≠ [] := by
    intro hnil
    rw [hnil] at h
    simp at h
  rw [dropWhile_getLast? isWsChar _ hne] at h
  rw [List.getLast?_reverse] at h
  exact dropWhile_head_false isWsChar l c (by simpa [dropWs] using h)

/-- `parseInt` succeeds exactly when the first non-whitespace character
exists and is a digit. -/
theorem parseInt_isSome_iff (s : String) :
    (jsParseIntNat s).isSome = true ↔
      ∃ c, (dropWs s.data).head? = some c ∧ c.isDigit = true := by
  have hds : s.data.dropWhile isWsChar = dropWs s.data := rfl
  simp only [jsParseIntNat, hds]
  generalize dropWs s.data = t
  cases t with
  | nil => simp
  | cons c cs =>
    rw [List.takeWhile_cons]
    by_cases hdig : c.isDigit = true
    · simp [hdig]
    · simp [hdig]

/-- A trimmed list needs no further whitespace dropping. -/
theorem dropWs_trimL (l : List Char) : dropWs (trimL l) = trimL l := by
  cases hd : trimL l with
  | nil => rfl
  | cons c cs =>
    have hc : isWsChar c = false := head_trimL_not_ws l c (by rw [hd]; rfl)
    simp [dropWs, List.dropWhile_cons, hc]

/-- A decimal digit is not JavaScript whitespace. -/
theorem digit_not_jsws (c : Char) (h : c.isDigit = true) : jsWsChar c = false := by
  simp only [jsWsChar, decide_eq_false_iff_not]
  intro hmem
  fin_cases hmem <;> exact absurd h (by decide)

/-- Dropping JavaScript whitespace from an all-digit list is the
identity. -/
theorem dropJsWs_all_digit (l : List Char) (h : l.all Char.isDigit = true) :
    l.dropWhile jsWsChar = l := by
  cases l with
  | nil => rfl
  | cons c cs =>
    have hc : c.isDigit = true := by
      have := List.all_eq_true.mp h c (List.mem_cons_self c cs)
      simpa using this
    simp [List.dropWhile_cons, digit_not_jsws c hc]

/-- A decimal digit is not a sign character. -/
theorem digit_not_sign (c : Char) (h : c.isDigit = true) :
    c ≠ '-' ∧ c ≠ '+' := by
  constructor
  · intro hh
    subst hh
    exact absurd h (by decide)
  · intro hh
    subst hh
    exact absurd h (by decide)

/-- An all-digit list never carries the `0x`/`0X` prefix. -/
theorem all_digit_not_hex (l : List Char) (h : l.all Char.isDigit = true) :
    l.take 2 ≠ ['0', 'x'] ∧ l.take 2 ≠ ['0', 'X'] := by
  have hx : ∀ d : Char, l.take 2 = ['0', d] → d.isDigit = true := by
    intro d hd
    have hmem : d ∈ l.take 2 := by
      rw [hd]
      exact List.mem_cons_of_mem _ (List.mem_cons_self d [])
    have hmem2 : d ∈ l := List.mem_of_mem_take hmem
    have := List.all_eq_true.mp h d hmem2
    simpa using this
  constructor
  · intro hh
    exact absurd (hx 'x' hh) (by decide)
  · intro hh
    exact absurd (hx 'X' hh) (by decide)

/-- The full `parseInt` on a nonempty all-digit string reads its decimal
value (no sign, no hex prefix, every character consumed). -/
theorem jsParseIntFull_all_digit (s : String) (hne : s.data ≠ [])
    (hall : s.data.all Char.isDigit = true) :
    jsParseIntFull s = some ((digitsVal s.data 0 : Nat) : Int) := by
  simp only [jsParseIntFull]
  rw [dropJsWs_all_digit s.data hall]
  cases hd : s.data with
  | nil => exact absurd hd hne
  | cons c r =>
    have hc : c.isDigit = true := by
      have := List.all_eq_true.mp hall c (hd ▸ List.mem_cons_self c r)
      simpa using this
    obtain ⟨hcm, hcp⟩ := digit_not_sign c hc
    have hall2 : (c :: r).all Char.isDigit = true := hd ▸ hall
    obtain ⟨hx1, hx2⟩ := all_digit_not_hex (c :: r) hall2
    have hsign : ((c :: r).head? = some '-' ∨ (c :: r).head? = some '+') =
        False := by
      simp [hcm, hcp]
    have hhex : (decide ((c :: r).take 2 = ['0', 'x']) ||
        decide ((c :: r).take 2 = ['0', 'X'])) = false := by
      rw [decide_eq_false hx1, decide_eq_false hx2]
      rfl
    have hneg : decide ((c :: r).head? = some '-') = false := by
      simp [hcm]
    simp only [hsign, hhex, hneg, Bool.false_eq_true, if_false]
    rw [takeWhile_all_digit _ hall2]
    simp

/-- A pending order used in the concrete scenarios. -/
def ordPending : Order :=
  ⟨"SVH-ORD1", "111", "Alice", "cat_500", "2", "90.00", "123456789012",
   "Pending", "", "t0"⟩

/-- An already-approved order used in the concrete scenarios. -/
def ordSucc : Order :=
  ⟨"SVH-OK1", "111", "Alice", "cat_500", "2", "90.00", "123456789012",
   "Successful", "x1\nx2", "t0"⟩

/-- A category with five pooled codes and the spec's example tier prices
(tier1 50, tier5 45, tier10 40, tier20Plus 35). -/
def catMain : Category :=
  ⟨"cat_500", "500", "50", "45", "40", "35", "", "5", "a1\nb2\nc3\nd4\ne5"⟩

/-- Sheet state with one category and one pending order. -/
def stMain : SheetState := ⟨[], [catMain], [ordPending]⟩

/-- Sheet state with one category and one already-Successful order. -/
def stSucc : SheetState := ⟨[], [catMain], [ordSucc]⟩

/-- Claim C7: the claim says `decline(orderId)` carries the same
fail-closed idempotent guard as approve, returning `AlreadyProcessed`
for an already-Successful order without modifying it.  The code has no
such guard: evaluated on a state whose only order is `Successful`, the
decline branch overwrites the status to `Declined` and notifies the
buyer; the claim is right about the intent (the approve branch has
exactly this guard and a Successful order is terminal per the order
state machine) and the code is wrong.  The inventory-untouched part does
hold: the categories are unchanged. -/
theorem decline_overwrites_successful_c7 :
    (admDecline stSucc "SVH-OK1").state.orders =
      [{ ordSucc with Status := "Declined" }] ∧
    (admDecline stSucc "SVH-OK1").userDeclineMsg = true ∧
    (admDecline stSucc "SVH-OK1").state.categories = stSucc.categories := by
  decide

/-- Claim C9: the claim says no event sequence ever places a non-admin
user's session in an `AdminAwaiting*` state.  The `callback_query`
handler of `src/index.js` performs no admin-identity comparison before
its `adm_` branches, so the callback `adm_add_cat_prompt` pressed (or
forged) by any user - here user `999`, which need not be the admin,
since the handler never consults the admin id at all - stores
`adm_waiting_for_cat_value` into that user's session.  The guarded
variant in `src/unnamed/part_000` (lines 549-554) shows the intended
check, so the claim is right and `src/index.js` is wrong. -/
theorem nonadmin_admin_state_c9 :
    indexCbStep [] "999" "adm_add_cat_prompt" =
      [("999", "adm_waiting_for_cat_value")] ∧
    isAdminState "adm_waiting_for_cat_value" = true ∧
    indexCbEffect "adm_add_cat_prompt" = .setState "adm_waiting_for_cat_value" := by
  decide

/-- Claim C8: in every approval execution in which the category-pool
write succeeds but the following order-status write fails (the sheet
call throws; neither call is wrapped in try/catch, so the exception
aborts the handler), the "Order Approved" success message is not sent to
the buyer and the order rows - in particular the order's `Pending`
status - are untouched, so the reservation is never reported or recorded
as applied. -/
theorem approve_no_silent_success_c8 (st : SheetState) (oid : String) :
    (admApprove st oid true false).userSuccessMsg = false ∧
    (admApprove st oid true false).state.orders = st.orders := by
  cases hf : st.orders.find? (fun o => o.OrderID == oid) with
  | none => simp [admApprove, hf]
  | some o =>
    by_cases hs : o.Status = "Pending"
    · cases hc : st.categories.find? (fun c => c.CategoryID == o.Category) with
      | none => simp [admApprove, hf, hc, hs]
      | some c =>
        by_cases hl : jsStrLt c.Stock o.Quantity = true
        · simp [admApprove, hf, hc, hs, hl]
        · by_cases hg : jsLtNatOpt (splitPoolS c.VoucherCodes).length
              (jsNumberNat o.Quantity) = true
          · simp [admApprove, hf, hc, hs, hl, hg]
          · simp [admApprove, hf, hc, hs, hl, hg]
    · simp [admApprove, hf, hs]

/-- Claim C6: the recovery lookup rejects any requester whose id differs
from the order's `UserID`, whatever the order's status (first conjunct),
and delivered codes are only ever returned for an order owned by the
requester and marked `Successful` (second conjunct). -/
theorem recover_ownership_c6 (orders : List Order) (uid text : String) :
    (∀ o, orders.find? (fun o2 => o2.OrderID == jsTrim text) = some o →
        o.UserID ≠ uid → recoverStep orders uid text = RecoverResult.notFound) ∧
    (∀ cs, recoverStep orders uid text = RecoverResult.codes cs →
        ∃ o, orders.find? (fun o2 => o2.OrderID == jsTrim text) = some o ∧
          o.UserID = uid ∧ o.Status = "Successful" ∧
          cs = o.VoucherCodeDelivered) := by
  constructor
  · intro o hfind hne
    simp only [recoverStep, hfind]
    simp [hne]
  · intro cs h
    simp only [recoverStep] at h
    cases hfind : orders.find? (fun o2 => o2.OrderID == jsTrim text) with
    | none =>
      rw [hfind] at h
      simp at h
    | some o =>
      rw [hfind] at h
      by_cases hu : o.UserID = uid
      · by_cases hst : o.Status = "Successful"
        · simp only [hu, ne_eq, not_true_eq_false, if_false, hst, if_true] at h
          refine ⟨o, by simp [hfind], hu, hst, ?_⟩
          cases h
          rfl
        · simp [hu, hst] at h
      · simp [hu] at h

/-- Claim C10 (implicit): a user who answers the captcha correctly has
their `Users` row rewritten to `Status 'Active'`, `Verified 'Yes'`
without any look at the prior status - here hypothesised to be
`Blocked` - so the verification path silently unblocks a blocked user.
(The `check_join` branch that leads here, `checkJoinProceeds`, is a
function of the channel-membership status alone and reads no user
record, so nothing upstream blocks the path either.) -/
theorem captcha_unblocks_c10 (users : List UserRow) (uid name ja text : String)
    (expected : Nat) (u : UserRow)
    (hfind : users.find? (fun u2 => u2.UserID == uid) = some u)
    (_hblocked : u.Status = "Blocked")
    (hparse : jsParseIntNat text = some expected) :
    captchaStep users uid name ja expected text =
      CaptchaOut.verified (updateFirst (fun u2 => u2.UserID == uid)
        (fun u2 => { u2 with Status := "Active", Verified := "Yes" }) users) ∧
    (updateFirst (fun u2 => u2.UserID == uid)
        (fun u2 => { u2 with Status := "Active", Verified := "Yes" })
        users).find? (fun u2 => u2.UserID == uid) =
      some { u with Status := "Active", Verified := "Yes" } := by
  constructor
  · simp only [captchaStep, hparse, hfind]
    simp
  · obtain ⟨l1, l2, rfl, hl1, hu⟩ :=
      find?_split (fun u2 => u2.UserID == uid) users u hfind
    rw [updateFirst_append _ _ l1 u l2 hl1 hu]
    exact find?_middle _ l1 _ l2 hl1 hu

/-- Blocked user fixture for the C10 witness. -/
def usersBlocked : List UserRow := [⟨"111", "Bob", "t0", "Blocked", "Yes"⟩]

/-- Concrete instance of C10: the blocked user `111` answers `7`
correctly and their row becomes `Active`/`Yes`. -/
theorem captcha_unblocks_c10_witness :
    captchaStep usersBlocked "111" "Bob" "t0" 7 "7" =
      CaptchaOut.verified (updateFirst (fun u2 => u2.UserID == "111")
        (fun u2 => { u2 with Status := "Active", Verified := "Yes" })
        usersBlocked) ∧
    (updateFirst (fun u2 => u2.UserID == "111")
        (fun u2 => { u2 with Status := "Active", Verified := "Yes" })
        usersBlocked).find? (fun u2 => u2.UserID == "111") =
      some ⟨"111", "Bob", "t0", "Active", "Yes"⟩ :=
  captcha_unblocks_c10 usersBlocked "111" "Bob" "t0" "7" 7
    ⟨"111", "Bob", "t0", "Blocked", "Yes"⟩ (by decide) rfl (by decide)

/-- Concrete instance of C6's ownership rejection: user `222` asks for
order `SVH-OK1` owned by `111` and is refused. -/
theorem recover_ownership_c6_witness :
    recoverStep [ordSucc] "222" "SVH-OK1" = RecoverResult.notFound :=
  (recover_ownership_c6 [ordSucc] "222" "SVH-OK1").1 ordSucc (by decide)
    (by decide)

/-- Claim C4: the price pick is a descending threshold scan with
fallthrough.  On the spec's example category (tiers 1 - 50, 5 - 45,
10 - 40, 20Plus - 35) the resolved unit price is 50 for quantity 4, 45
for 5 and 9, 40 for 10 and 35 for 25; and in general an empty tier cell
falls through to the chain of the next lower tier, the tier-1 cell
falling back to the legacy base `Price` cell. -/
theorem price_tier_resolution_c4 :
    (resolveRate catMain 4 = some 50 ∧ resolveRate catMain 5 = some 45 ∧
     resolveRate catMain 9 = some 45 ∧ resolveRate catMain 10 = some 40 ∧
     resolveRate catMain 25 = some 35) ∧
    (∀ (cat : Category) (q : Nat), 20 ≤ q → cat.Price20Plus = "" →
       resolveRate cat q = resolveRate cat 10) ∧
    (∀ (cat : Category) (q : Nat), 10 ≤ q → q < 20 → cat.Price10 = "" →
       resolveRate cat q = resolveRate cat 5) ∧
    (∀ (cat : Category) (q : Nat), 5 ≤ q → q < 10 → cat.Price5 = "" →
       resolveRate cat q = resolveRate cat 1) ∧
    (∀ (cat : Category) (q : Nat), q < 5 → cat.Price1 = "" →
       resolveRate cat q =
         (match jsParseFloatNat cat.Price with
          | none => none
          | some r => if r = 0 then none else some r)) := by
  refine ⟨by decide, ?_, ?_, ?_, ?_⟩
  · intro cat q h20 hp
    have hpick : pickRate cat q = pickRate cat 10 := by
      simp only [pickRate, hp]
      rw [if_pos h20, if_neg (by omega : ¬10 ≥ 20), if_pos (by omega : 10 ≥ 10)]
      simp [jsOr]
    simp only [resolveRate, hpick]
  · intro cat q h10 h20 hp
    have hpick : pickRate cat q = pickRate cat 5 := by
      simp only [pickRate, hp]
      rw [if_neg (by omega : ¬q ≥ 20), if_pos (by omega : q ≥ 10),
        if_neg (by omega : ¬5 ≥ 20), if_neg (by omega : ¬5 ≥ 10),
        if_pos (by omega : 5 ≥ 5)]
      simp [jsOr]
    simp only [resolveRate, hpick]
  · intro cat q h5 h10 hp
    have hpick : pickRate cat q = pickRate cat 1 := by
      simp only [pickRate, hp]
      rw [if_neg (by omega : ¬q ≥ 20), if_neg (by omega : ¬q ≥ 10),
        if_pos (by omega : q ≥ 5), if_neg (by omega : ¬1 ≥ 20),
        if_neg (by omega : ¬1 ≥ 10), if_neg (by omega : ¬1 ≥ 5)]
      simp [jsOr]
    simp only [resolveRate, hpick]
  · intro cat q h5 hp
    have hpick : pickRate cat q = jsOr cat.Price1 cat.Price := by
      simp only [pickRate]
      rw [if_neg (by omega : ¬q ≥ 20), if_neg (by omega : ¬q ≥ 10),
        if_neg (by omega : ¬q ≥ 5)]
    rw [resolveRate, hpick, hp]
    simp [jsOr]

/-- The example category with the 20Plus tier left unconfigured. -/
def catNo20 : Category :=
  ⟨"cat_500", "500", "50", "45", "40", "", "", "5", "a1\nb2\nc3\nd4\ne5"⟩

/-- Concrete instance of C4's fallthrough: with no 20Plus price,
quantity 25 resolves through the tier-10 chain to 40. -/
theorem price_tier_resolution_c4_witness :
    resolveRate catNo20 25 = resolveRate catNo20 10 ∧
    resolveRate catNo20 10 = some 40 :=
  ⟨price_tier_resolution_c4.2.1 catNo20 25 (by omega) rfl, by decide⟩

/-- Claim C5 counterexample: the claim says a UTR is accepted if and
only if all twelve characters are decimal digits; the input
`123456789abc` has length 12, only nine digits, and is accepted, because
the code only tests `utr.length === 12 && !isNaN(parseInt(utr))` and
`parseInt` reads just the digit prefix. -/
theorem utr_accepts_nondigits_c5 :
    utrValid "123456789abc" = true ∧
    ("123456789abc".data.all Char.isDigit) = false := by
  decide

/-- Claim C5 as amended: submission accepts a UTR iff the trimmed input
(full JavaScript trim) has UTF-16 length exactly 12 and `parseInt` of it
is not `NaN` - an optional sign followed by a decimal-digit prefix, or a
`0x`/`0X` prefix with at least one hexadecimal digit.  In particular
every exact 12-digit numeric string is accepted, but so are 12-character
strings with a digit prefix and a non-digit tail and sign-prefixed
numerals such as `-12345678901`, while the digit-leading
`0xZZZZZZZZZZ` is rejected.  Every accepted submission appends exactly
one order row with status `Pending` and an empty delivered-codes cell,
and a rejected input changes nothing and re-prompts in the same
state. -/
theorem utr_acceptance_c5 (text : String) :
    (utrValid text = true ↔
      utf16Len (jsTrimU text).data = 12 ∧
        (jsParseIntFull (jsTrimU text)).isSome = true) ∧
    ((jsTrimU text).data ≠ [] →
      (jsTrimU text).data.all Char.isDigit = true →
      utf16Len (jsTrimU text).data = 12 → utrValid text = true) ∧
    (∀ (st : SheetState) (uid fn oid ca cat : String) (q : Nat) (tot : String),
       utrValid text = true →
         utrStep st uid fn oid ca cat q tot text =
           UtrOut.submitted { st with orders := st.orders ++
             [⟨oid, uid, fn, cat, natRepr q, tot, jsTrimU text,
               "Pending", "", ca⟩] }) ∧
    (∀ (st : SheetState) (uid fn oid ca cat : String) (q : Nat) (tot : String),
       utrValid text = false →
         utrStep st uid fn oid ca cat q tot text = UtrOut.reprompt) := by
  refine ⟨?_, ?_, ?_, ?_⟩
  · simp [utrValid, Bool.and_eq_true]
  · intro hne hall hlen
    simp only [utrValid, Bool.and_eq_true, beq_iff_eq]
    refine ⟨hlen, ?_⟩
    rw [jsParseIntFull_all_digit (jsTrimU text) hne hall]
    rfl
  · intro st uid fn oid ca cat q tot h
    simp only [utrStep, h, if_true, submitOrder]
  · intro st uid fn oid ca cat q tot h
    simp only [utrStep, h, Bool.false_eq_true, if_false]

/-- Concrete instance of C5: the all-digit UTR `123456789012` is
accepted and creates exactly one `Pending` order, the sign-prefixed
12-character `-12345678901` is also accepted (JavaScript `parseInt`
reads its sign), and the digit-leading `0xZZZZZZZZZZ` is rejected
(`parseInt` strips the `0x` prefix and finds no hexadecimal digits). -/
theorem utr_acceptance_c5_witness :
    utrValid "123456789012" = true ∧
    utrValid "-12345678901" = true ∧
    utrValid "0xZZZZZZZZZZ" = false ∧
    utrStep stMain "111" "Alice" "SVH-NEW" "t1" "cat_500" 2 "90.00"
        "123456789012" =
      UtrOut.submitted { stMain with orders := stMain.orders ++
        [⟨"SVH-NEW", "111", "Alice", "cat_500", natRepr 2, "90.00",
          jsTrimU "123456789012", "Pending", "", "t1"⟩] } :=
  ⟨by decide, by decide, by decide,
   (utr_acceptance_c5 "123456789012").2.2.1 stMain "111" "Alice" "SVH-NEW" "t1"
     "cat_500" 2 "90.00" (by decide)⟩

/-- Characterisation of the approve branch when every guard passes and
both writes succeed: the reported result, the two row updates and the
success notification, verbatim from the code. -/
theorem admApprove_success (st : SheetState) (oid : String) (o : Order)
    (c : Category)
    (hf : st.orders.find? (fun o2 => o2.OrderID == oid) = some o)
    (hs : o.Status = "Pending")
    (hc : st.categories.find? (fun c2 => c2.CategoryID == o.Category) = some c)
    (hlex : jsStrLt c.Stock o.Quantity = false)
    (hg : jsLtNatOpt (splitPoolS c.VoucherCodes).length (jsNumberNat o.Quantity)
        = false) :
    admApprove st oid true true =
      ⟨ApproveResult.approved ((splitPoolS c.VoucherCodes).take
          ((jsParseIntNat o.Quantity).getD 0)),
       ⟨st.users,
        updateFirst (fun c2 => c2.CategoryID == c.CategoryID)
          (fun c2 => { c2 with
            Stock := jsSubToStr (jsNumberNat c.Stock) (jsParseIntNat o.Quantity),
            VoucherCodes := (joinNl ((splitPoolS c.VoucherCodes).drop
              ((jsParseIntNat o.Quantity).getD 0))) })
          st.categories,
        updateFirst (fun o2 => o2.OrderID == oid)
          (fun o2 => { o2 with
            Status := "Successful",
            VoucherCodeDelivered := (joinNl ((splitPoolS c.VoucherCodes).take
              ((jsParseIntNat o.Quantity).getD 0))) })
          st.orders⟩,
       true⟩ := by
  simp only [admApprove, hf, hc]
  simp [hs, hlex, hg]

/-- The approve branch rejects without any write when the order found is
not `Pending` (the idempotent guard of lines 562-565). -/
theorem admApprove_not_pending (st : SheetState) (oid : String) (o : Order)
    (cw ow : Bool)
    (hf : st.orders.find? (fun o2 => o2.OrderID == oid) = some o)
    (hs : o.Status ≠ "Pending") :
    admApprove st oid cw ow =
      ⟨ApproveResult.notFoundOrProcessed, st, false⟩ := by
  simp only [admApprove, hf]
  simp [hs]

/-- Claim C1 as amended: the frozen claim - every first approve of a
Pending order succeeds - fails on the code, because the stock guard
`categoryToUpdate.Stock < orderToApprove.Quantity` compares the two
cells as strings and can refuse an amply stocked order (see the
counterexample: stock `10`, quantity `2`).  On a Pending order that also
passes that lexicographic guard (`hlex`), the first approve does report
success, marks the order `Successful` with the first `q` pool codes
delivered, and deducts the stock and the pool by exactly `q` - once;
and a second approve of the same order is then rejected as already
processed and returns the state untouched, sending no further
notification.  (`hinv` is the `stockCount = |pool|` cell invariant.) -/
theorem approve_idempotent_c1 (st : SheetState) (oid : String) (o : Order)
    (c : Category) (q s : Nat)
    (hf : st.orders.find? (fun o2 => o2.OrderID == oid) = some o)
    (hs : o.Status = "Pending")
    (hc : st.categories.find? (fun c2 => c2.CategoryID == o.Category) = some c)
    (hq : o.Quantity = natRepr q)
    (hstock : c.Stock = natRepr s)
    (hinv : s = (splitPoolS c.VoucherCodes).length)
    (hlex : jsStrLt c.Stock o.Quantity = false)
    (hle : q ≤ (splitPoolS c.VoucherCodes).length) :
    (admApprove st oid true true).result =
        ApproveResult.approved ((splitPoolS c.VoucherCodes).take q) ∧
    (admApprove st oid true true).userSuccessMsg = true ∧
    (admApprove st oid true true).state.orders.find?
        (fun o2 => o2.OrderID == oid) =
      some { o with Status := "Successful",
                    VoucherCodeDelivered :=
                      joinNl ((splitPoolS c.VoucherCodes).take q) } ∧
    (admApprove st oid true true).state.categories.find?
        (fun c2 => c2.CategoryID == o.Category) =
      some { c with Stock := natRepr (s - q),
                    VoucherCodes :=
                      joinNl ((splitPoolS c.VoucherCodes).drop q) } ∧
    splitPoolS (joinNl ((splitPoolS c.VoucherCodes).drop q)) =
        (splitPoolS c.VoucherCodes).drop q ∧
    admApprove (admApprove st oid true true).state oid true true =
      ⟨ApproveResult.notFoundOrProcessed,
       (admApprove st oid true true).state, false⟩ := by
  have hg : jsLtNatOpt (splitPoolS c.VoucherCodes).length
      (jsNumberNat o.Quantity) = false := by
    rw [hq, jsNumberNat_natRepr]
    simp only [jsLtNatOpt, decide_eq_false_iff_not]
    omega
  have hqq : (jsParseIntNat o.Quantity).getD 0 = q := by
    rw [hq, jsParseIntNat_natRepr]
    rfl
  have hqs : q ≤ s := hinv ▸ hle
  have hsub : jsSubToStr (jsNumberNat c.Stock) (jsParseIntNat o.Quantity) =
      natRepr (s - q) := by
    rw [hq, hstock, jsNumberNat_natRepr, jsParseIntNat_natRepr]
    simp only [jsSubToStr]
    rw [← Nat.cast_sub hqs]
    rfl
  have hEq := admApprove_success st oid o c hf hs hc hlex hg
  rw [hqq] at hEq
  rw [hsub] at hEq
  have hdropPool : splitPoolS (joinNl ((splitPoolS c.VoucherCodes).drop q)) =
      (splitPoolS c.VoucherCodes).drop q := by
    apply splitPoolS_join
    intro x hx
    exact mem_splitPoolS c.VoucherCodes x (List.mem_of_mem_drop hx)
  obtain ⟨l1, l2, hlsplit, hl1, hpo⟩ :=
    find?_split (fun o2 => o2.OrderID == oid) st.orders o hf
  have hordfind : (admApprove st oid true true).state.orders.find?
      (fun o2 => o2.OrderID == oid) =
      some { o with Status := "Successful",
                    VoucherCodeDelivered :=
                      joinNl ((splitPoolS c.VoucherCodes).take q) } := by
    rw [hEq]
    show (updateFirst (fun o2 => o2.OrderID == oid) _ st.orders).find? _ = _
    rw [hlsplit, updateFirst_append _ _ l1 o l2 hl1 hpo]
    exact find?_middle _ l1 _ l2 hl1 hpo
  obtain ⟨m1, m2, hmsplit, hm1, hpc⟩ :=
    find?_split (fun c2 => c2.CategoryID == o.Category) st.categories c hc
  have hcatfind : (admApprove st oid true true).state.categories.find?
      (fun c2 => c2.CategoryID == o.Category) =
      some { c with Stock := natRepr (s - q),
                    VoucherCodes :=
                      joinNl ((splitPoolS c.VoucherCodes).drop q) } := by
    rw [hEq]
    show (updateFirst (fun c2 => c2.CategoryID == c.CategoryID) _
        st.categories).find? _ = _
    have hpc2 : (fun c2 : Category => c2.CategoryID == c.CategoryID) =
        (fun c2 : Category => c2.CategoryID == o.Category) := by
      funext c2
      have : c.CategoryID = o.Category := by
        have := List.find?_some hc
        simpa using this
      rw [this]
    rw [hpc2, hmsplit, updateFirst_append _ _ m1 c m2 hm1 hpc]
    exact find?_middle _ m1 _ m2 hm1 hpc
  refine ⟨by rw [hEq], by rw [hEq], hordfind, hcatfind, hdropPool, ?_⟩
  exact admApprove_not_pending _ oid _ true true hordfind (by simp)

/-- Concrete instance of C1: approving the pending order `SVH-ORD1`
(quantity 2, pool of 5) succeeds once, delivers the first two codes,
stores stock 3, and a second approval is rejected with no change. -/
theorem approve_idempotent_c1_witness :
    (admApprove stMain "SVH-ORD1" true true).result =
        ApproveResult.approved ((splitPoolS catMain.VoucherCodes).take 2) ∧
    (admApprove stMain "SVH-ORD1" true true).userSuccessMsg = true ∧
    (admApprove stMain "SVH-ORD1" true true).state.orders.find?
        (fun o2 => o2.OrderID == "SVH-ORD1") =
      some { ordPending with
        Status := "Successful",
        VoucherCodeDelivered :=
          joinNl ((splitPoolS catMain.VoucherCodes).take 2) } ∧
    (admApprove stMain "SVH-ORD1" true true).state.categories.find?
        (fun c2 => c2.CategoryID == ordPending.Category) =
      some { catMain with
        Stock := natRepr (5 - 2),
        VoucherCodes :=
          joinNl ((splitPoolS catMain.VoucherCodes).drop 2) } ∧
    splitPoolS (joinNl ((splitPoolS catMain.VoucherCodes).drop 2)) =
        (splitPoolS catMain.VoucherCodes).drop 2 ∧
    admApprove (admApprove stMain "SVH-ORD1" true true).state "SVH-ORD1"
        true true =
      ⟨ApproveResult.notFoundOrProcessed,
       (admApprove stMain "SVH-ORD1" true true).state, false⟩ :=
  approve_idempotent_c1 stMain "SVH-ORD1" ordPending catMain 2 5 (by decide)
    rfl (by decide) (by decide) (by decide) (by decide) (by decide) (by decide)

/-- The example category with stock cell `10` and a ten-code pool. -/
def catTen : Category :=
  ⟨"cat_500", "500", "50", "45", "40", "35", "", "10",
   "c01\nc02\nc03\nc04\nc05\nc06\nc07\nc08\nc09\nc10"⟩

/-- A pending quantity-2 order against the ten-code category. -/
def ordTwoOfTen : Order :=
  ⟨"SVH-ORD3", "111", "Alice", "cat_500", "2", "100.00", "123456789012",
   "Pending", "", "t0"⟩

/-- Sheet state with the ten-code category and the quantity-2 order. -/
def stTen : SheetState := ⟨[], [catTen], [ordTwoOfTen]⟩

/-- Claim C1 counterexample: the frozen claim says a first
`approve(orderId)` on every Pending order sets it to `Successful` with
one inventory deduction.  Here the order is Pending, the pool holds ten
codes (five times the requested quantity of two) and the stock cell is
the matching `10`, yet the guard evaluates the JavaScript string
comparison `'10' < '2'` as true, so the first approve is refused as
stock-low: the order never becomes `Successful` and nothing is
deducted. -/
theorem approve_spurious_stocklow_c1 :
    ordTwoOfTen.Status = "Pending" ∧
    catTen.Stock = natRepr (splitPoolS catTen.VoucherCodes).length ∧
    jsNumberNat ordTwoOfTen.Quantity = some 2 ∧
    (2 : Nat) ≤ (splitPoolS catTen.VoucherCodes).length ∧
    (admApprove stTen "SVH-ORD3" true true).result = ApproveResult.stockLow ∧
    (admApprove stTen "SVH-ORD3" true true).state = stTen ∧
    (admApprove stTen "SVH-ORD3" true true).userSuccessMsg = false := by
  decide

/-- Claim C2: whenever the requested quantity exceeds the category's
pool size at call time, the approve branch reports a stock problem (the
string-comparison guard or the code-count guard) and leaves every row -
category stock, pool, and order - exactly as it was, with no success
notification. -/
theorem reserve_no_overallocation_c2 (st : SheetState) (oid : String)
    (o : Order) (c : Category) (q : Nat)
    (hf : st.orders.find? (fun o2 => o2.OrderID == oid) = some o)
    (hs : o.Status = "Pending")
    (hc : st.categories.find? (fun c2 => c2.CategoryID == o.Category) = some c)
    (hq : jsNumberNat o.Quantity = some q)
    (hgt : (splitPoolS c.VoucherCodes).length < q) :
    ((admApprove st oid true true).result = ApproveResult.stockLow ∨
     (admApprove st oid true true).result = ApproveResult.insufficientCodes) ∧
    (admApprove st oid true true).state = st ∧
    (admApprove st oid true true).userSuccessMsg = false := by
  by_cases hlex : jsStrLt c.Stock o.Quantity = true
  · have : admApprove st oid true true = ⟨ApproveResult.stockLow, st, false⟩ := by
      simp only [admApprove, hf, hc]
      simp [hs, hlex]
    rw [this]
    exact ⟨Or.inl rfl, rfl, rfl⟩
  · have hg : jsLtNatOpt (splitPoolS c.VoucherCodes).length
        (jsNumberNat o.Quantity) = true := by
      rw [hq]
      simpa [jsLtNatOpt] using hgt
    have : admApprove st oid true true =
        ⟨ApproveResult.insufficientCodes, st, false⟩ := by
      simp only [admApprove, hf, hc]
      simp [hs, hlex, hg]
    rw [this]
    exact ⟨Or.inr rfl, rfl, rfl⟩

/-- A pending order requesting more codes than the pool holds. -/
def ordBig : Order :=
  ⟨"SVH-ORD2", "111", "Alice", "cat_500", "10", "400.00", "123456789012",
   "Pending", "", "t0"⟩

/-- Sheet state with the five-code category and the oversized order. -/
def stBig : SheetState := ⟨[], [catMain], [ordBig]⟩

/-- Concrete instance of C2: quantity 10 against a pool of 5 is refused
and the state is untouched. -/
theorem reserve_no_overallocation_c2_witness :
    ((admApprove stBig "SVH-ORD2" true true).result = ApproveResult.stockLow ∨
     (admApprove stBig "SVH-ORD2" true true).result =
       ApproveResult.insufficientCodes) ∧
    (admApprove stBig "SVH-ORD2" true true).state = stBig ∧
    (admApprove stBig "SVH-ORD2" true true).userSuccessMsg = false :=
  reserve_no_overallocation_c2 stBig "SVH-ORD2" ordBig catMain 10 (by decide)
    rfl (by decide) (by decide) (by decide)

/-- The committed mutations of a category's stock cells: an admin stock
paste, an admin code removal, and an order approval (with both sheet
writes succeeding). -/
inductive Mutation
  | appendCodes (categoryId text : String)
  | removeCode (text : String)
  | approve (orderId : String)
deriving DecidableEq, Repr

/-- Apply one committed mutation to the sheet state. -/
def applyMutation (st : SheetState) (m : Mutation) : SheetState :=
  match m with
  | .appendCodes cid text => admAppendCodes st cid text
  | .removeCode text => admRemoveCode st text
  | .approve oid => (admApprove st oid true true).state

/-- The stock-cell invariant of the spec: the stored `Stock` cell is the
decimal length of the parsed code pool. -/
abbrev CatInv (c : Category) : Prop :=
  c.Stock = natRepr (splitPoolS c.VoucherCodes).length

/-- An order whose `Quantity` cell is a plain digit string - the only
shape the bot ever writes (`qty.toString()` of a positive integer). -/
abbrev QtyDigits (o : Order) : Prop :=
  o.Quantity.data ≠ [] ∧ o.Quantity.data.all Char.isDigit = true

/-- Well-formed sheet state: every category satisfies the stock
invariant and every order quantity is a digit string. -/
abbrev StateWF (st : SheetState) : Prop :=
  (∀ c ∈ st.categories, CatInv c) ∧ ∀ o ∈ st.orders, QtyDigits o

/-- On an all-digit string, `Number` and `parseInt` agree and read the
digits' value. -/
theorem parse_all_digit (s : String) (hne : s.data ≠ [])
    (hall : s.data.all Char.isDigit = true) :
    jsNumberNat s = some (digitsVal s.data 0) ∧
      jsParseIntNat s = some (digitsVal s.data 0) := by
  constructor
  · simp only [jsNumberNat, trimL_all_digit _ hall]
    simp [hne, hall]
  · simp only [jsParseIntNat, dropWs_all_digit _ hall, takeWhile_all_digit _ hall]
    simp [hne]

/-- `Number(stock) - parseInt(qty)` renders as the decimal difference
when it is nonnegative. -/
theorem jsSubToStr_some (a b : Nat) (h : b ≤ a) :
    jsSubToStr (some a) (some b) = natRepr (a - b) := by
  simp only [jsSubToStr]
  rw [← Nat.cast_sub h]
  rfl

/-- The stock paste keeps the stock invariant: the updated category
stores `Stock := updatedVouchers.length.toString()` next to the joined
pool. -/
theorem admAppendCodes_WF (st : SheetState) (cid text : String)
    (h : StateWF st) : StateWF (admAppendCodes st cid text) := by
  cases hf : st.categories.find? (fun c => c.CategoryID == cid) with
  | none => simpa [admAppendCodes, hf] using h
  | some c =>
    simp only [admAppendCodes, hf]
    refine ⟨?_, h.2⟩
    intro x hx
    rcases mem_updateFirst _ _ st.categories x hx with hmem | ⟨y, _, rfl⟩
    · exact h.1 x hmem
    · have hpool : splitPoolS
          (joinNl (splitPoolS c.VoucherCodes ++ splitCodesInput text)) =
          splitPoolS c.VoucherCodes ++ splitCodesInput text := by
        apply splitPoolS_join
        intro z hz
        rcases List.mem_append.mp hz with hz | hz
        · exact mem_splitPoolS c.VoucherCodes z hz
        · exact splitCodesInput_poolish text z hz
      simp only [CatInv]
      rw [hpool]

/-- The removal scan keeps the stock invariant on every category. -/
theorem removeCodeScan_inv (code : String) :
    ∀ cats : List Category, (∀ c ∈ cats, CatInv c) →
      ∀ c ∈ removeCodeScan code cats, CatInv c := by
  intro cats
  induction cats with
  | nil =>
    intro _ c hc
    simp [removeCodeScan] at hc
  | cons a as ih =>
    intro h c hc
    simp only [removeCodeScan] at hc
    by_cases hlt : ((splitPoolS a.VoucherCodes).filter
        (fun x => x ≠ code)).length < (splitPoolS a.VoucherCodes).length
    · rw [if_pos hlt] at hc
      rcases List.mem_cons.mp hc with rfl | hc
      · have hpool : splitPoolS (joinNl ((splitPoolS a.VoucherCodes).filter
            (fun x => x ≠ code))) =
            (splitPoolS a.VoucherCodes).filter (fun x => x ≠ code) := by
          apply splitPoolS_join
          intro z hz
          exact mem_splitPoolS a.VoucherCodes z (List.mem_filter.mp hz).1
        simp only [CatInv]
        rw [hpool]
      · exact h c (List.mem_cons_of_mem a hc)
    · rw [if_neg hlt] at hc
      rcases List.mem_cons.mp hc with rfl | hc
      · exact h c (List.mem_cons_self c as)
      · exact ih (fun x hx => h x (List.mem_cons_of_mem a hx)) c hc

/-- An order approval keeps the stock invariant and the digit-quantity
shape of every order. -/
theorem admApprove_WF (st : SheetState) (oid : String) (h : StateWF st) :
    StateWF (admApprove st oid true true).state := by
  cases hf : st.orders.find? (fun o2 => o2.OrderID == oid) with
  | none =>
    have hst : (admApprove st oid true true).state = st := by
      simp [admApprove, hf]
    rw [hst]
    exact h
  | some o =>
    by_cases hs : o.Status = "Pending"
    · cases hc : st.categories.find? (fun c2 => c2.CategoryID == o.Category) with
      | none =>
        have hst : (admApprove st oid true true).state = st := by
          simp [admApprove, hf, hc, hs]
        rw [hst]
        exact h
      | some c =>
        by_cases hlex : jsStrLt c.Stock o.Quantity = true
        · have hst : (admApprove st oid true true).state = st := by
            simp [admApprove, hf, hc, hs, hlex]
          rw [hst]
          exact h
        · by_cases hg : jsLtNatOpt (splitPoolS c.VoucherCodes).length
              (jsNumberNat o.Quantity) = true
          · have hst : (admApprove st oid true true).state = st := by
              simp [admApprove, hf, hc, hs, hlex, hg]
            rw [hst]
            exact h
          · have hlex2 : jsStrLt c.Stock o.Quantity = false := by
              simpa using hlex
            have hg2 : jsLtNatOpt (splitPoolS c.VoucherCodes).length
                (jsNumberNat o.Quantity) = false := by
              simpa using hg
            rw [admApprove_success st oid o c hf hs hc hlex2 hg2]
            obtain ⟨hq_ne, hq_all⟩ := h.2 o (List.mem_of_find?_eq_some hf)
            obtain ⟨hnum, hparse⟩ := parse_all_digit o.Quantity hq_ne hq_all
            have hcinv : CatInv c := h.1 c (List.mem_of_find?_eq_some hc)
            have hvle : digitsVal o.Quantity.data 0 ≤
                (splitPoolS c.VoucherCodes).length := by
              rw [hnum] at hg2
              simp only [jsLtNatOpt, decide_eq_false_iff_not] at hg2
              omega
            constructor
            · intro x hx
              rcases mem_updateFirst _ _ st.categories x hx with hmem | ⟨y, _, rfl⟩
              · exact h.1 x hmem
              · have hdrop : splitPoolS (joinNl ((splitPoolS c.VoucherCodes).drop
                    ((jsParseIntNat o.Quantity).getD 0))) =
                    (splitPoolS c.VoucherCodes).drop
                      ((jsParseIntNat o.Quantity).getD 0) := by
                  apply splitPoolS_join
                  intro z hz
                  exact mem_splitPoolS c.VoucherCodes z (List.mem_of_mem_drop hz)
                simp only [CatInv]
                rw [hdrop, hparse, hcinv, jsNumberNat_natRepr]
                simp only [Option.getD_some]
                rw [jsSubToStr_some _ _ hvle, List.length_drop]
            · intro x hx
              rcases mem_updateFirst _ _ st.orders x hx with hmem | ⟨y, hy, rfl⟩
              · exact h.2 x hmem
              · exact h.2 y hy
    · have hst : (admApprove st oid true true).state = st := by
        simp [admApprove, hf, hs]
      rw [hst]
      exact h

/-- Every committed mutation keeps the state well-formed. -/
theorem applyMutation_WF (st : SheetState) (m : Mutation) (h : StateWF st) :
    StateWF (applyMutation st m) := by
  cases m with
  | appendCodes cid text => exact admAppendCodes_WF st cid text h
  | removeCode text =>
    refine ⟨?_, h.2⟩
    intro c hc
    exact removeCodeScan_inv (jsTrim text) st.categories h.1 c hc
  | approve oid => exact admApprove_WF st oid h

/-- Claim C3: starting from any well-formed sheet state (every category
stores `Stock = |pool|`, every order quantity is the digit string the
bot writes), after any sequence of committed mutations - admin code
appends, admin code removals, order approvals - every category's stored
stock cell still equals the decimal length of its parsed code pool. -/
theorem stock_conservation_c3 (st : SheetState) (hwf : StateWF st)
    (ms : List Mutation) :
    ∀ c ∈ (ms.foldl applyMutation st).categories,
      c.Stock = natRepr (splitPoolS c.VoucherCodes).length := by
  have main : ∀ (ms2 : List Mutation) (st2 : SheetState), StateWF st2 →
      StateWF (ms2.foldl applyMutation st2) := by
    intro ms2
    induction ms2 with
    | nil => intro st2 h2; exact h2
    | cons m rest ih =>
      intro st2 h2
      exact ih (applyMutation st2 m) (applyMutation_WF st2 m h2)
  exact (main ms st hwf).1

/-- The category row after pasting two codes and approving `SVH-ORD1`
on the main fixture. -/
def catAfter : Category :=
  ⟨"cat_500", "500", "50", "45", "40", "35", "", "5", "c3\nd4\ne5\nx9\ny8"⟩

/-- Concrete instance of C3: after appending `x9, y8` and approving the
quantity-2 order, the stored stock `5` is the length of the remaining
pool. -/
theorem stock_conservation_c3_witness :
    catAfter.Stock = natRepr (splitPoolS catAfter.VoucherCodes).length :=
  stock_conservation_c3 stMain (by decide)
    [Mutation.appendCodes "cat_500" "x9, y8", Mutation.approve "SVH-ORD1"]
    catAfter (by decide)
